import Mathlib

/-!
# politeia: `cmswww manageuser` and `politeiawwwcli newuser`

A shallow embedding of the two command handlers

* `politeiawww/cmd/cmswww/manageuser.go` (`ManageUserCmd.Execute`)
* `politeiawww/cmd/politeiawwwcli/commands/newuser.go` (`NewuserCmd.Execute`)

Go strings are lists of characters, Go `int` is `Int` (range-checked where
`strconv.Atoi` checks it), standard input is the list of characters not yet
read, and every call of a collaborator is recorded in a trace of events.
Loops `for { ... }` take a bound on the number of iterations; running out of
it is the result `none`.
-/

namespace Politeia

/-! ## Go values -/

/-- A Go string. -/
abbrev GoString := List Char

/-- A Go `error`, known by the text `Error()` returns. -/
structure GoError where
  text : GoString
deriving DecidableEq, Repr

/-- The call `fmt.Errorf(text)` with the text already formatted. -/
def Errorf (text : GoString) : GoError := ⟨text⟩

/-- The predicate `unicode.IsSpace`. -/
def isSpace (c : Char) : Bool :=
  let n := c.toNat
  n == 0x09 || n == 0x0A || n == 0x0B || n == 0x0C || n == 0x0D || n == 0x20 ||
  n == 0x85 || n == 0xA0 || n == 0x1680 || (0x2000 ≤ n && n ≤ 0x200A) ||
  n == 0x2028 || n == 0x2029 || n == 0x202F || n == 0x205F || n == 0x3000

/-- The function `strings.TrimSpace`: drop leading and trailing white space. -/
def TrimSpace (s : GoString) : GoString :=
  ((s.dropWhile isSpace).reverse.dropWhile isSpace).reverse

/-- Value of a decimal digit, `none` for any other character. -/
def digitVal (c : Char) : Option Nat :=
  if 48 ≤ c.toNat ∧ c.toNat ≤ 57 then some (c.toNat - 48) else none

/-- Read a run of decimal digits, most significant first, onto `acc`. -/
def parseDigits : List Char → Nat → Option Nat
  | [], acc => some acc
  | c :: cs, acc =>
    match digitVal c with
    | none => none
    | some d => parseDigits cs (acc * 10 + d)

/-- The sign of a numeral and what follows it, as `strconv.Atoi` reads them. -/
def splitSign : GoString → Bool × GoString
  | c :: cs => if c = '-' then (true, cs) else if c = '+' then (false, cs) else (false, c :: cs)
  | [] => (false, [])

/-- The function `strconv.Atoi` on a 64-bit platform: an optional sign and at
least one decimal digit, the value within the range of `int`; `none` is a
non-nil error (syntax or range). The number Go returns next to a non-nil error
is never read by the callers below. -/
def Atoi (s : GoString) : Option Int :=
  let (neg, ds) := splitSign s
  if ds = [] then none
  else
    match parseDigits ds 0 with
    | none => none
    | some n =>
      let v : Int := if neg then -(n : Int) else (n : Int)
      if -(2 : Int) ^ 63 ≤ v ∧ v ≤ (2 : Int) ^ 63 - 1 then some v else none

/-- The call `strings.Split(s, sep)` for a separator of one character: the
pieces of `s` between the occurrences of `sep`, one more than there are
occurrences. -/
def Split : GoString → Char → List GoString
  | [], _ => [[]]
  | c :: cs, sep =>
    if c = sep then [] :: Split cs sep
    else
      match Split cs sep with
      | [] => [[c]]
      | p :: ps => (c :: p) :: ps

/-- Standard input behind `bufio.NewReader(os.Stdin)`: the characters not yet
read. -/
abbrev Reader := List Char

/-- The method `reader.ReadString` with delimiter line feed: the text up to and
including the first line feed, or all that is left at end of input (the error
Go returns there is dropped by every caller below), and the reader after it. -/
def ReadString : Reader → GoString × Reader
  | [] => ([], [])
  | c :: cs =>
    if c = Char.ofNat 10 then ([c], cs)
    else ((c :: (ReadString cs).1), (ReadString cs).2)

/-! ## manageuser: data -/

/-- The command `ManageUserCmd`: the positional argument and the three flags. -/
structure ManageUserCmd where
  UserID : GoString
  Domain : GoString
  ContractorType : GoString
  SupervisorUserIDs : GoString
deriving DecidableEq, Repr

/-- The reply of `client.Me`, the field the command reads. -/
structure LoginReply where
  IsAdmin : Bool
deriving DecidableEq, Repr

/-- The record `cms.User`, the fields the command reads; `cms.DomainTypeT`
and `cms.ContractorTypeT` are integer types. The zero value `cms.User{}` is
`⟨0, 0, []⟩`. -/
structure User where
  Domain : Int
  ContractorType : Int
  SupervisorUserIDs : List GoString
deriving DecidableEq, Repr

/-- The reply of `client.CMSUserDetails`. -/
structure UserDetailsReply where
  User : User
deriving DecidableEq, Repr

/-- The request `cms.ManageUser`. -/
structure ManageUser where
  UserID : GoString
  Domain : Int
  ContractorType : Int
  SupervisorUserIDs : List GoString
deriving DecidableEq, Repr

/-- The reply of `client.CMSManageUser`, an empty record. -/
structure ManageUserReply where
deriving DecidableEq, Repr

/-- The seven questions `Execute` puts through `promptListBool`, each with the
value its text is formatted from. -/
inductive Question
  | domainUpdate (current : Int)
  | domainKeep (entered : Int)
  | contractorTypeUpdate (current : Int)
  | contractorTypeKeep (entered : Int)
  | supervisorsUpdate (current : List GoString)
  | supervisorAdd (id : GoString)
  | supervisorsKeep (ids : List GoString)
deriving DecidableEq, Repr

/-- What the command does to the outside, in order. A prompt is recorded with
its default entry and the answer (`none` when the prompt failed). -/
inductive Event
  | Me
  | CMSUserDetails (id : GoString)
  | promptListBool (q : Question) (defaultEntry : GoString) (answer : Option Bool)
  | ReadString (line : GoString)
  | CMSManageUser (mu : ManageUser)
  | PrintJSON (reply : ManageUserReply)
deriving DecidableEq, Repr

/-- The collaborators of `manageuser`: configuration, client, printer, the
confirmation prompt (which is given the reader and hands back the reader it
leaves) and standard input. -/
structure Env where
  Identity : Bool
  ErrUserIdentityNotFound : GoError
  Me : Except GoError LoginReply
  CMSUserDetails : GoString → Except GoError (Option UserDetailsReply)
  CMSManageUser : ManageUser → Except GoError ManageUserReply
  PrintJSON : ManageUserReply → Option GoError
  promptListBool : Reader → Question → GoString → Except GoError (Bool × Reader)
  Stdin : Reader

/-- The reader and the trace so far. -/
structure St where
  reader : Reader
  trace : List Event
deriving DecidableEq, Repr

/-- What a run of `Execute` leaves: the trace and the error returned (`none`
for `nil`). -/
structure Result where
  trace : List Event
  err : Option GoError
deriving DecidableEq, Repr

/-- The default entry "yes". -/
def yes : GoString := ['y', 'e', 's']

/-- The default entry "no". -/
def no : GoString := ['n', 'o']

/-- The state after one `reader.ReadString`. -/
def St.read (s : St) : St :=
  ⟨(ReadString s.reader).2, s.trace ++ [Event.ReadString (ReadString s.reader).1]⟩

/-- The state after a prompt that answered `b` and left reader `r`. -/
def St.answered (s : St) (q : Question) (d : GoString) (b : Bool) (r : Reader) : St :=
  ⟨r, s.trace ++ [Event.promptListBool q d (some b)]⟩

/-- The state after a prompt that failed. -/
def St.failed (s : St) (q : Question) (d : GoString) : St :=
  ⟨s.reader, s.trace ++ [Event.promptListBool q d none]⟩

/-! ## manageuser: the three loops -/

/-- The numbered-choice loop, lines 68-91 with `hi = 6` and lines 104-126 with
`hi = 3`: read a line, parse it, check the range, ask "Keep this?". The value
is the number kept and the line it was read from (which the loop stores in the
flag field of the command). -/
def choiceLoop (env : Env) (hi : Int) (keepQ : Int → Question) :
    Nat → St → Option (St × Except GoError (Int × GoString))
  | 0, _ => none
  | fuel + 1, s =>
    let line := (ReadString s.reader).1
    match Atoi (TrimSpace line) with
    | none => choiceLoop env hi keepQ fuel s.read
    | some v =>
      if v < 1 ∨ v > hi then choiceLoop env hi keepQ fuel s.read
      else
        match env.promptListBool s.read.reader (keepQ v) yes with
        | .error e => some (s.read.failed (keepQ v) yes, .error e)
        | .ok (true, r) => some (s.read.answered (keepQ v) yes true r, .ok (v, line))
        | .ok (false, r) => choiceLoop env hi keepQ fuel (s.read.answered (keepQ v) yes false r)

/-- The loop of lines 139-162: read an ID, ask "Add this?", append it, ask
"Keep This?". -/
def supervisorLoop (env : Env) :
    Nat → List GoString → St → Option (St × Except GoError (List GoString))
  | 0, _, _ => none
  | fuel + 1, ids, s =>
    let id := TrimSpace (ReadString s.reader).1
    match env.promptListBool s.read.reader (.supervisorAdd id) yes with
    | .error e => some (s.read.failed (.supervisorAdd id) yes, .error e)
    | .ok (false, r) => supervisorLoop env fuel ids (s.read.answered (.supervisorAdd id) yes false r)
    | .ok (true, r) =>
      let s2 := s.read.answered (.supervisorAdd id) yes true r
      let ids2 := ids ++ [id]
      match env.promptListBool s2.reader (.supervisorsKeep ids2) yes with
      | .error e => some (s2.failed (.supervisorsKeep ids2) yes, .error e)
      | .ok (true, r3) => some (s2.answered (.supervisorsKeep ids2) yes true r3, .ok ids2)
      | .ok (false, r3) =>
        supervisorLoop env fuel ids2 (s2.answered (.supervisorsKeep ids2) yes false r3)

/-! ## manageuser: `Execute` -/

/-- What the interactive block leaves in the local variables of `Execute`:
`domainType`, `contractorType`, the two flag fields (overwritten by the choice
loops) and `userInfo.SupervisorUserIDs`. -/
structure Locals where
  domainType : Int
  contractorType : Int
  Domain : GoString
  ContractorType : GoString
  SupervisorUserIDs : List GoString
deriving DecidableEq, Repr

/-- Lines 60-95: the domain, when the flag is empty. The value is `domainType`
and `cmd.Domain`. -/
def resolveDomain (env : Env) (cmd : ManageUserCmd) (userInfo : User) (fuel : Nat) (s : St) :
    Option (St × Except GoError (Int × GoString)) :=
  if cmd.Domain = [] then
    match env.promptListBool s.reader (.domainUpdate userInfo.Domain) no with
    | .error e => some (s.failed (.domainUpdate userInfo.Domain) no, .error e)
    | .ok (true, r) =>
      choiceLoop env 6 .domainKeep fuel (s.answered (.domainUpdate userInfo.Domain) no true r)
    | .ok (false, r) =>
      some (s.answered (.domainUpdate userInfo.Domain) no false r, .ok (userInfo.Domain, cmd.Domain))
  else some (s, .ok (0, cmd.Domain))

/-- Lines 96-130: the contractor type, when the flag is empty. The value is
`contractorType` and `cmd.ContractorType`. -/
def resolveContractorType (env : Env) (cmd : ManageUserCmd) (userInfo : User) (fuel : Nat)
    (s : St) : Option (St × Except GoError (Int × GoString)) :=
  if cmd.ContractorType = [] then
    match env.promptListBool s.reader (.contractorTypeUpdate userInfo.ContractorType) no with
    | .error e => some (s.failed (.contractorTypeUpdate userInfo.ContractorType) no, .error e)
    | .ok (true, r) =>
      choiceLoop env 3 .contractorTypeKeep fuel
        (s.answered (.contractorTypeUpdate userInfo.ContractorType) no true r)
    | .ok (false, r) =>
      some (s.answered (.contractorTypeUpdate userInfo.ContractorType) no false r,
        .ok (userInfo.ContractorType, cmd.ContractorType))
  else some (s, .ok (0, cmd.ContractorType))

/-- Lines 131-169: the supervisor list, when the flag is empty, and the final
"press Enter" read. The value is `userInfo.SupervisorUserIDs`. -/
def resolveSupervisors (env : Env) (cmd : ManageUserCmd) (userInfo : User) (fuel : Nat)
    (s : St) : Option (St × Except GoError (List GoString)) :=
  if cmd.SupervisorUserIDs = [] then
    match env.promptListBool s.reader (.supervisorsUpdate userInfo.SupervisorUserIDs) no with
    | .error e => some (s.failed (.supervisorsUpdate userInfo.SupervisorUserIDs) no, .error e)
    | .ok (true, r) =>
      match supervisorLoop env fuel userInfo.SupervisorUserIDs
          (s.answered (.supervisorsUpdate userInfo.SupervisorUserIDs) no true r) with
      | none => none
      | some (s2, .error e) => some (s2, .error e)
      | some (s2, .ok ids) => some (s2.read, .ok ids)
    | .ok (false, r) =>
      some ((s.answered (.supervisorsUpdate userInfo.SupervisorUserIDs) no false r).read,
        .ok userInfo.SupervisorUserIDs)
  else some (s, .ok userInfo.SupervisorUserIDs)

/-- Lines 56-170: the declaration of `domainType` and `contractorType` (both 0)
and the interactive block, entered when a domain or contractor-type flag is
given or the supervisor flag is not. -/
def interactive (env : Env) (cmd : ManageUserCmd) (userInfo : User) (fuel : Nat) (s : St) :
    Option (St × Except GoError Locals) :=
  if cmd.Domain ≠ [] ∨ cmd.ContractorType ≠ [] ∨ cmd.SupervisorUserIDs = [] then
    match resolveDomain env cmd userInfo fuel s with
    | none => none
    | some (s1, .error e) => some (s1, .error e)
    | some (s1, .ok (domainType, domain)) =>
      match resolveContractorType env cmd userInfo fuel s1 with
      | none => none
      | some (s2, .error e) => some (s2, .error e)
      | some (s2, .ok (contractorType, contractor)) =>
        match resolveSupervisors env cmd userInfo fuel s2 with
        | none => none
        | some (s3, .error e) => some (s3, .error e)
        | some (s3, .ok ids) => some (s3, .ok ⟨domainType, contractorType, domain, contractor, ids⟩)
  else some (s, .ok ⟨0, 0, cmd.Domain, cmd.ContractorType, userInfo.SupervisorUserIDs⟩)

/-- The text of the error of lines 175 and 183. -/
def invalidDomain : GoString := "invalid domain attempted, please try again".toList

/-- The text of the error of line 42. -/
def mustBeAdmin : GoString := "must be an administrator to complete this request".toList

/-- The text of the error of line 191. -/
def invalidSupervisors : GoString :=
  "invalid supervisor user ids attempted, please try again with a list separated by commas".toList

/-- Lines 172-201: the fallback to the flag texts, the supervisor flag and the
request. `userID` is `cmd.Args.UserID` as given. -/
def assemble (cmd : ManageUserCmd) (l : Locals) : Except GoError ManageUser :=
  match (if l.domainType = 0 then Atoi (TrimSpace l.Domain) else some l.domainType) with
  | none => .error (Errorf invalidDomain)
  | some domainType =>
    match (if l.contractorType = 0 then Atoi (TrimSpace l.ContractorType)
           else some l.contractorType) with
    | none => .error (Errorf invalidDomain)
    | some contractorType =>
      if cmd.SupervisorUserIDs ≠ [] then
        if (Split cmd.SupervisorUserIDs ',').length < 1 then .error (Errorf invalidSupervisors)
        else .ok ⟨cmd.UserID, domainType, contractorType, Split cmd.SupervisorUserIDs ','⟩
      else .ok ⟨cmd.UserID, domainType, contractorType, l.SupervisorUserIDs⟩

/-- Lines 203-209: the call of `client.CMSManageUser` and the printing of its
reply. -/
def submit (env : Env) (mu : ManageUser) (trace : List Event) : Result :=
  match env.CMSManageUser mu with
  | .error e => ⟨trace ++ [.CMSManageUser mu], some e⟩
  | .ok ecur => ⟨trace ++ [.CMSManageUser mu, .PrintJSON ecur], env.PrintJSON ecur⟩

/-- Lines 52-55: `userInfo`, the zero value of `cms.User` when the reply is nil. -/
def userInfoOf (uir : Option UserDetailsReply) : User :=
  match uir with
  | none => ⟨0, 0, []⟩
  | some r => r.User

/-- The method `ManageUserCmd.Execute`. Every loop may run `fuel` times; `none`
is a loop that did not end within that. -/
def ManageUserCmd.Execute (env : Env) (cmd : ManageUserCmd) (fuel : Nat) : Option Result :=
  if env.Identity = false then some ⟨[], some env.ErrUserIdentityNotFound⟩
  else
    match env.Me with
    | .error e => some ⟨[.Me], some e⟩
    | .ok lr =>
      if lr.IsAdmin = false then some ⟨[.Me], some (Errorf mustBeAdmin)⟩
      else
        match env.CMSUserDetails (TrimSpace cmd.UserID) with
        | .error e => some ⟨[.Me, .CMSUserDetails (TrimSpace cmd.UserID)], some e⟩
        | .ok uir =>
          match interactive env cmd (userInfoOf uir) fuel
              ⟨env.Stdin, [.Me, .CMSUserDetails (TrimSpace cmd.UserID)]⟩ with
          | none => none
          | some (s, .error e) => some ⟨s.trace, some e⟩
          | some (s, .ok l) =>
            match assemble cmd l with
            | .error e => some ⟨s.trace, some e⟩
            | .ok mu => some (submit env mu s.trace)

/-- The requests passed to `client.CMSManageUser` in a trace. -/
def submitted (trace : List Event) : List ManageUser :=
  trace.filterMap fun e => match e with
    | .CMSManageUser mu => some mu
    | _ => none

/-! ## newuser -/

/-- A byte. -/
abbrev Byte := Fin 256

/-- The table `hextable` of `encoding/hex`. -/
def hextable : List Char := "0123456789abcdef".toList

/-- The function `hex.EncodeToString`: two characters of `hextable` for each
byte, the high half first. -/
def EncodeToString : List Byte → GoString
  | [] => []
  | b :: bs => hextable.getD (b.val / 16) '0' :: hextable.getD (b.val % 16) '0' :: EncodeToString bs

/-- The command `NewuserCmd`: the two positional arguments and the flags. -/
structure NewuserCmd where
  Email : GoString
  Password : GoString
  Random : Bool
  Save : Bool
  Verify : Bool
  Paywall : Bool
  OverrideToken : GoString

/-- The reply of `Ctx.Policy`, the field the command reads. -/
structure PolicyReply where
  MinPasswordLength : Nat

/-- The identity returned by `Ctx.NewUser`, by its method `SignMessage`. -/
structure Identity where
  SignMessage : GoString → List Byte

/-- What `Ctx.NewUser` returns next to a nil error. -/
structure NewUserReply where
  token : GoString
  id : Identity
  paywallAddress : GoString
  paywallAmount : Nat

/-- What `newuser` does to the outside, in order. -/
inductive NewuserEvent
  | Policy
  | Random (n : Nat)
  | NewUser (email password : GoString)
  | Save (path : GoString)
  | Printf (text : GoString)
  | SignMessage (message : GoString)
  | VerifyNewUser (email token signature : GoString)
  | PayWithTestnetFaucet (url address : GoString) (amount : Nat) (overridetoken : GoString)
deriving DecidableEq, Repr

/-- The collaborators of `newuser`: the context, `util.Random`,
`util.PayWithTestnetFaucet` and the two constants of package `config`. -/
structure NewuserEnv where
  Policy : Except GoError PolicyReply
  Random : Nat → Except GoError (List Byte)
  NewUser : GoString → GoString → Except GoError NewUserReply
  VerifyNewUser : GoString → GoString → GoString → Option GoError
  PayWithTestnetFaucet : GoString → GoString → Nat → GoString → Except GoError GoString
  UserIdentityFile : GoString
  FaucetURL : GoString

/-- What a run of `newuser` leaves: the trace and the error returned. -/
structure NewuserResult where
  trace : List NewuserEvent
  err : Option GoError
deriving DecidableEq, Repr

/-- The text of the error of lines 25-26. -/
def missingCredentials : GoString :=
  "You must either provide a email & password or use the --random flag".toList

/-- The text of the error of lines 76-77. -/
def unableToPay (amount : Nat) (address : GoString) : GoString :=
  "unable to pay ".toList ++ Nat.toDigits 10 amount ++ " DCR to ".toList ++ address ++
    [Char.ofNat 10]

/-- The text of the error of lines 83-84. -/
def unableToPayWithFaucet (amount : Nat) (address : GoString) (err : GoError) : GoString :=
  "unable to pay  ".toList ++ Nat.toDigits 10 amount ++ " DCR to ".toList ++ address ++
    " with faucet: ".toList ++ err.text

/-- The text printed by line 61. -/
def savedTo (path : GoString) : GoString :=
  "User identity saved to: ".toList ++ path ++ [Char.ofNat 10]

/-- The text printed by lines 87-88. -/
def paidWith (amount : Nat) (address faucetTx : GoString) : GoString :=
  "paid ".toList ++ Nat.toDigits 10 amount ++ " DCR to ".toList ++ address ++
    " with faucet tx ".toList ++ faucetTx ++ [Char.ofNat 10]

/-- Lines 35-50: the email and the password, with the events of choosing them. -/
def credentials (env : NewuserEnv) (cmd : NewuserCmd) (pr : PolicyReply) :
    Except GoError (GoString × GoString) × List NewuserEvent :=
  if cmd.Random then
    match env.Random pr.MinPasswordLength with
    | .error e => (.error e, [.Random pr.MinPasswordLength])
    | .ok b =>
      (.ok (EncodeToString b ++ "@example.com".toList, EncodeToString b),
        [.Random pr.MinPasswordLength])
  else (.ok (cmd.Email, cmd.Password), [])

/-- Lines 73-89: the faucet step, entered when `--paywall` is set. -/
def payFaucet (env : NewuserEnv) (cmd : NewuserCmd) (paywallAddress : GoString)
    (paywallAmount : Nat) (trace : List NewuserEvent) : NewuserResult :=
  if paywallAddress = [] ∧ paywallAmount = 0 then
    ⟨trace, some (Errorf (unableToPay paywallAmount paywallAddress))⟩
  else
    match env.PayWithTestnetFaucet env.FaucetURL paywallAddress paywallAmount
        cmd.OverrideToken with
    | .error e =>
      ⟨trace ++ [.PayWithTestnetFaucet env.FaucetURL paywallAddress paywallAmount
          cmd.OverrideToken],
        some (Errorf (unableToPayWithFaucet paywallAmount paywallAddress e))⟩
    | .ok faucetTx =>
      ⟨trace ++ [.PayWithTestnetFaucet env.FaucetURL paywallAddress paywallAmount
          cmd.OverrideToken, .Printf (paidWith paywallAmount paywallAddress faucetTx)],
        none⟩

/-- The method `NewuserCmd.Execute`. -/
def NewuserCmd.Execute (env : NewuserEnv) (cmd : NewuserCmd) : NewuserResult :=
  if cmd.Random = false ∧ cmd.Email = [] then ⟨[], some (Errorf missingCredentials)⟩
  else
    match env.Policy with
    | .error e => ⟨[.Policy], some e⟩
    | .ok pr =>
      match credentials env cmd pr with
      | (.error e, evs) => ⟨[.Policy] ++ evs, some e⟩
      | (.ok (email, password), evs) =>
        match env.NewUser email password with
        | .error e => ⟨[.Policy] ++ evs ++ [.NewUser email password], some e⟩
        | .ok nu =>
          let t1 := [.Policy] ++ evs ++ [.NewUser email password]
          let t2 := if cmd.Save then
              t1 ++ [.Save env.UserIdentityFile, .Printf (savedTo env.UserIdentityFile)]
            else t1
          let sig := EncodeToString (nu.id.SignMessage nu.token)
          let t3 := if cmd.Verify then
              t2 ++ [.SignMessage nu.token, .VerifyNewUser email nu.token sig]
            else t2
          match (if cmd.Verify then env.VerifyNewUser email nu.token sig else none) with
          | some e => ⟨t3, some e⟩
          | none =>
            if cmd.Paywall then payFaucet env cmd nu.paywallAddress nu.paywallAmount t3
            else ⟨t3, none⟩

/-! ## The confirmation prompt -/

/-- ASCII lower case of a character. -/
def toLowerAscii (c : Char) : Char :=
  if 65 ≤ c.toNat ∧ c.toNat ≤ 90 then Char.ofNat (c.toNat + 32) else c

/-- Modelled from the spec: `promptListBool` is not among the source files. A
yes/no question with a default, read from line-oriented input: a line is read
(end of input before the line feed is an error), lower-cased and trimmed; an empty reply stands for
the default entry; "y" and "yes" answer true, "n" and "no" answer false, and any
other reply repeats the question. `fuel` bounds the lines read. -/
def promptLines : Nat → Reader → GoString → Except GoError (Bool × Reader)
  | 0, _, _ => .error (Errorf "EOF".toList)
  | fuel + 1, r, defaultEntry =>
    if (ReadString r).1.getLast? ≠ some (Char.ofNat 10) then .error (Errorf "EOF".toList)
    else
      let reply0 := TrimSpace ((ReadString r).1.map toLowerAscii)
      let reply := if reply0 = [] then defaultEntry else reply0
      if reply = "yes".toList ∨ reply = "y".toList then .ok (true, (ReadString r).2)
      else if reply = "no".toList ∨ reply = "n".toList then .ok (false, (ReadString r).2)
      else promptLines fuel (ReadString r).2 defaultEntry

/-- Modelled from the spec: the confirmation prompt as a collaborator of
`Execute`; the question is only shown, the answer comes from the reader. -/
def promptFromStdin (r : Reader) (_q : Question) (defaultEntry : GoString) :
    Except GoError (Bool × Reader) :=
  promptLines r.length r defaultEntry

/-! ## Observations on traces -/

/-- The IDs whose "Add this?" prompt was accepted, in the order of the trace. -/
def addedIDs (trace : List Event) : List GoString :=
  trace.filterMap fun e => match e with
    | .promptListBool (.supervisorAdd id) _ (some true) => some id
    | _ => none

/-- The three attributes `manageuser` reconciles. -/
inductive Attr
  | domain
  | contractorType
  | supervisors
deriving DecidableEq, Repr

/-- The attribute a question is about. -/
def Question.attr : Question → Attr
  | .domainUpdate _ => .domain
  | .domainKeep _ => .domain
  | .contractorTypeUpdate _ => .contractorType
  | .contractorTypeKeep _ => .contractorType
  | .supervisorsUpdate _ => .supervisors
  | .supervisorAdd _ => .supervisors
  | .supervisorsKeep _ => .supervisors

/-- An event of the interactive block for attribute `a`: a line read, or a
prompt with a question about `a`. -/
def Event.about (a : Attr) : Event → Prop
  | .ReadString _ => True
  | .promptListBool q _ _ => q.attr = a
  | _ => False

/-- What the supervisor loop may append to the trace. -/
def Event.ofSupervisorLoop (e : Event) : Prop :=
  (∃ l, e = Event.ReadString l) ∨
    (∃ id ans, e = Event.promptListBool (.supervisorAdd id) yes ans) ∨
    ∃ ids ans, e = Event.promptListBool (.supervisorsKeep ids) yes ans

/-- What the events `new` of resolving a numbered-choice attribute say about
the value `v` and the flag text `text` it leaves: a flag leaves 0 and the flag;
an accepted "Keep this?" leaves the number kept, within range; a declined
"Update?" leaves the server's value `cur` and the empty flag. -/
def ChoiceFacts (updateQ keepQ : Int → Question) (hi : Int) (flag : GoString) (cur : Int)
    (new : List Event) (v : Int) (text : GoString) : Prop :=
  (flag ≠ [] → v = 0 ∧ text = flag) ∧
  (∀ w, Event.promptListBool (keepQ w) yes (some true) ∈ new → v = w ∧ 1 ≤ w ∧ w ≤ hi) ∧
  (∀ c, Event.promptListBool (updateQ c) no (some false) ∈ new → v = cur ∧ text = [])

/-- What the events `new` of resolving the supervisor list say about the list
`ids` it leaves. -/
def SupervisorFacts (cur : List GoString) (new : List Event) (ids : List GoString) : Prop :=
  (∀ c, Event.promptListBool (.supervisorsUpdate c) no (some false) ∈ new → ids = cur) ∧
  (∀ c, Event.promptListBool (.supervisorsUpdate c) no (some true) ∈ new →
    ids = cur ++ addedIDs new ∧ addedIDs new ≠ [] ∧
    (∀ id ∈ addedIDs new, ∃ l, Event.ReadString l ∈ new ∧ id = TrimSpace l) ∧
    Event.promptListBool (.supervisorsKeep ids) yes (some true) ∈ new) ∧
  (∀ l, Event.promptListBool (.supervisorsKeep l) yes (some true) ∈ new → l = ids)

/-- One round of the supervisor loop after which the loop repeats: "Add this?"
is declined and the list stays, or the ID is added and "Keep This?" is
declined. -/
inductive SupervisorRepeats (env : Env) : List GoString × St → List GoString × St → Prop
  | addDeclined (ids : List GoString) (s : St) (r : Reader) :
    env.promptListBool s.read.reader (.supervisorAdd (TrimSpace (ReadString s.reader).1)) yes
      = .ok (false, r) →
    SupervisorRepeats env (ids, s)
      (ids, s.read.answered (.supervisorAdd (TrimSpace (ReadString s.reader).1)) yes false r)
  | keepDeclined (ids : List GoString) (s : St) (r r3 : Reader) :
    env.promptListBool s.read.reader (.supervisorAdd (TrimSpace (ReadString s.reader).1)) yes
      = .ok (true, r) →
    env.promptListBool r (.supervisorsKeep (ids ++ [TrimSpace (ReadString s.reader).1])) yes
      = .ok (false, r3) →
    SupervisorRepeats env (ids, s)
      (ids ++ [TrimSpace (ReadString s.reader).1],
        ((s.read.answered (.supervisorAdd (TrimSpace (ReadString s.reader).1)) yes true r).answered
          (.supervisorsKeep (ids ++ [TrimSpace (ReadString s.reader).1])) yes false r3))

/-! ## Sessions used as examples -/

/-- A session of `manageuser` in which an identity is configured, the caller
is an administrator, the lookup finds the record `u`, the update is accepted and
printed, and the prompts are answered from the standard input `stdin`. -/
def adminSession (stdin : GoString) (u : User) : Env where
  Identity := true
  ErrUserIdentityNotFound := Errorf "user identity not found".toList
  Me := .ok ⟨true⟩
  CMSUserDetails := fun _ => .ok (some ⟨u⟩)
  CMSManageUser := fun _ => .ok ⟨⟩
  PrintJSON := fun _ => none
  promptListBool := promptFromStdin
  Stdin := stdin

/-- The session `adminSession` with a caller who is no administrator. -/
def plainSession (stdin : GoString) (u : User) : Env :=
  { adminSession stdin u with Me := .ok ⟨false⟩ }

/-- The record of the scenario: domain 2, contractor type 1, supervisor "a". -/
def scenarioUser : User := ⟨2, 1, ["a".toList]⟩

/-- The session of the supervisor example: "Update?" is accepted, " abc " is
declined, "de" is added and the list not kept, "f" is added and the list
kept. -/
def supervisorSession : Env :=
  adminSession "y\n abc \nn\nde\n\nn\nf\ny\ny\n\n".toList scenarioUser

/-- The command of the supervisor example: `--domain=1 --contractortype=1`. -/
def supervisorCmd : ManageUserCmd := ⟨"u1".toList, "1".toList, "1".toList, []⟩

/-- The request of the supervisor example. -/
def supervisorRequest : ManageUser :=
  ⟨"u1".toList, 1, 1, ["a".toList, "de".toList, "f".toList]⟩

/-- The run of the supervisor example. -/
def supervisorResult : Result :=
  ⟨[.Me, .CMSUserDetails "u1".toList,
    .promptListBool (.supervisorsUpdate ["a".toList]) no (some true),
    .ReadString " abc \n".toList,
    .promptListBool (.supervisorAdd "abc".toList) yes (some false),
    .ReadString "de\n".toList, .promptListBool (.supervisorAdd "de".toList) yes (some true),
    .promptListBool (.supervisorsKeep ["a".toList, "de".toList]) yes (some false),
    .ReadString "f\n".toList, .promptListBool (.supervisorAdd "f".toList) yes (some true),
    .promptListBool (.supervisorsKeep ["a".toList, "de".toList, "f".toList]) yes (some true),
    .ReadString "\n".toList, .CMSManageUser supervisorRequest, .PrintJSON ⟨⟩], none⟩

theorem atoi_trim_nil : Atoi (TrimSpace []) = none := by decide

theorem choiceLoop_spec (env : Env) (hi : Int) (keepQ : Int → Question)
    (hinj : Function.Injective keepQ) :
    ∀ (fuel : Nat) (s s' : St) (r : Except GoError (Int × GoString)),
      choiceLoop env hi keepQ fuel s = some (s', r) →
      ∃ new, s'.trace = s.trace ++ new ∧
        (∀ e ∈ new, (∃ l, e = Event.ReadString l) ∨
          ∃ w ans, e = Event.promptListBool (keepQ w) yes ans) ∧
        (∀ v line, r = .ok (v, line) → 1 ≤ v ∧ v ≤ hi ∧
          ∀ w, Event.promptListBool (keepQ w) yes (some true) ∈ new → w = v) := by
  intro fuel
  induction fuel with
  | zero => intro s s' r h; simp [choiceLoop] at h
  | succ n ih =>
    intro s s' r h
    rw [choiceLoop] at h
    split at h
    · obtain ⟨new, h1, h2, h3⟩ := ih _ _ _ h
      refine ⟨Event.ReadString (ReadString s.reader).1 :: new, ?_, ?_, ?_⟩
      · simp [h1, St.read]
      · intro e he
        rcases List.mem_cons.1 he with rfl | he
        · exact Or.inl ⟨_, rfl⟩
        · exact h2 e he
      · intro v line hr
        obtain ⟨a, b, c⟩ := h3 v line hr
        refine ⟨a, b, fun w hw => c w ?_⟩
        simpa using hw
    · rename_i v hv
      split at h
      · obtain ⟨new, h1, h2, h3⟩ := ih _ _ _ h
        refine ⟨Event.ReadString (ReadString s.reader).1 :: new, ?_, ?_, ?_⟩
        · simp [h1, St.read]
        · intro e he
          rcases List.mem_cons.1 he with rfl | he
          · exact Or.inl ⟨_, rfl⟩
          · exact h2 e he
        · intro v line hr
          obtain ⟨a, b, c⟩ := h3 v line hr
          refine ⟨a, b, fun w hw => c w ?_⟩
          simpa using hw
      · rename_i hrange
        split at h
        · simp only [Option.some.injEq, Prod.mk.injEq] at h
          obtain ⟨rfl, rfl⟩ := h
          refine ⟨[Event.ReadString (ReadString s.reader).1,
            Event.promptListBool (keepQ v) yes none], ?_, ?_, ?_⟩
          · simp [St.failed, St.read]
          · intro e he
            simp only [List.mem_cons, List.mem_singleton, List.not_mem_nil, or_false] at he
            rcases he with rfl | rfl
            · exact Or.inl ⟨_, rfl⟩
            · exact Or.inr ⟨_, _, rfl⟩
          · intro v line hr; simp at hr
        · simp only [Option.some.injEq, Prod.mk.injEq] at h
          obtain ⟨rfl, rfl⟩ := h
          refine ⟨[Event.ReadString (ReadString s.reader).1,
            Event.promptListBool (keepQ v) yes (some true)], ?_, ?_, ?_⟩
          · simp [St.answered, St.read]
          · intro e he
            simp only [List.mem_cons, List.mem_singleton, List.not_mem_nil, or_false] at he
            rcases he with rfl | rfl
            · exact Or.inl ⟨_, rfl⟩
            · exact Or.inr ⟨_, _, rfl⟩
          · intro v2 line hr
            simp only [Except.ok.injEq, Prod.mk.injEq] at hr
            obtain ⟨rfl, rfl⟩ := hr
            refine ⟨by omega, by omega, ?_⟩
            intro w hw
            simp only [List.mem_cons, List.mem_singleton, List.not_mem_nil, or_false,
              Event.promptListBool.injEq, and_true, false_or] at hw
            rcases hw with hw | hw
            · cases hw
            · exact hinj hw
        · obtain ⟨new, h1, h2, h3⟩ := ih _ _ _ h
          refine ⟨Event.ReadString (ReadString s.reader).1 ::
            Event.promptListBool (keepQ v) yes (some false) :: new, ?_, ?_, ?_⟩
          · simp [h1, St.read, St.answered]
          · intro e he
            simp only [List.mem_cons] at he
            rcases he with rfl | rfl | he
            · exact Or.inl ⟨_, rfl⟩
            · exact Or.inr ⟨_, _, rfl⟩
            · exact h2 e he
          · intro v line hr
            obtain ⟨a, b, c⟩ := h3 v line hr
            refine ⟨a, b, fun w hw => c w ?_⟩
            simpa using hw

theorem addedIDs_append (a b : List Event) : addedIDs (a ++ b) = addedIDs a ++ addedIDs b := by
  simp [addedIDs, List.filterMap_append]

theorem supervisorLoop_spec (env : Env) :
    ∀ (fuel : Nat) (ids : List GoString) (s s' : St) (r : Except GoError (List GoString)),
      supervisorLoop env fuel ids s = some (s', r) →
      ∃ new, s'.trace = s.trace ++ new ∧
        (∀ e ∈ new, e.ofSupervisorLoop) ∧
        (∀ id ∈ addedIDs new, ∃ l, Event.ReadString l ∈ new ∧ id = TrimSpace l) ∧
        (∀ l, Event.promptListBool (.supervisorsKeep l) yes (some true) ∈ new → r = .ok l) ∧
        (∀ ids', r = .ok ids' → ids' = ids ++ addedIDs new ∧ addedIDs new ≠ [] ∧
          Event.promptListBool (.supervisorsKeep ids') yes (some true) ∈ new) := by
  intro fuel
  induction fuel with
  | zero => intro ids s s' r h; simp [supervisorLoop] at h
  | succ n ih =>
    intro ids s s' r h
    rw [supervisorLoop] at h
    split at h
    · simp only [Option.some.injEq, Prod.mk.injEq] at h
      obtain ⟨rfl, rfl⟩ := h
      refine ⟨[Event.ReadString (ReadString s.reader).1,
        Event.promptListBool (.supervisorAdd (TrimSpace (ReadString s.reader).1)) yes none],
        ?_, ?_, ?_, ?_, ?_⟩
      · simp [St.failed, St.read]
      · intro e he
        simp only [List.mem_cons, List.mem_singleton, List.not_mem_nil, or_false] at he
        rcases he with rfl | rfl
        · exact Or.inl ⟨_, rfl⟩
        · exact Or.inr (Or.inl ⟨_, _, rfl⟩)
      · simp [addedIDs]
      · simp
      · simp
    · obtain ⟨new, h1, h2, h3, h4, h5⟩ := ih _ _ _ _ h
      refine ⟨Event.ReadString (ReadString s.reader).1 ::
        Event.promptListBool (.supervisorAdd (TrimSpace (ReadString s.reader).1)) yes (some false)
          :: new, ?_, ?_, ?_, ?_, ?_⟩
      · simp [h1, St.answered, St.read]
      · intro e he
        simp only [List.mem_cons] at he
        rcases he with rfl | rfl | he
        · exact Or.inl ⟨_, rfl⟩
        · exact Or.inr (Or.inl ⟨_, _, rfl⟩)
        · exact h2 e he
      · intro id hid
        have hid2 : id ∈ addedIDs new := by simpa [addedIDs] using hid
        obtain ⟨l, hl, rfl⟩ := h3 id hid2
        exact ⟨l, by simp [hl], rfl⟩
      · intro l hl
        exact h4 l (by simpa using hl)
      · intro ids' hr
        obtain ⟨a, b, c⟩ := h5 ids' hr
        exact ⟨by simpa [addedIDs] using a, by simpa [addedIDs] using b, by simp [c]⟩
    · dsimp only at h
      split at h
      · simp only [Option.some.injEq, Prod.mk.injEq] at h
        obtain ⟨rfl, rfl⟩ := h
        refine ⟨[Event.ReadString (ReadString s.reader).1,
          Event.promptListBool (.supervisorAdd (TrimSpace (ReadString s.reader).1)) yes
            (some true),
          Event.promptListBool
            (.supervisorsKeep (ids ++ [TrimSpace (ReadString s.reader).1])) yes none],
          ?_, ?_, ?_, ?_, ?_⟩
        · simp [St.failed, St.answered, St.read]
        · intro e he
          simp only [List.mem_cons, List.mem_singleton, List.not_mem_nil, or_false] at he
          rcases he with rfl | rfl | rfl
          · exact Or.inl ⟨_, rfl⟩
          · exact Or.inr (Or.inl ⟨_, _, rfl⟩)
          · exact Or.inr (Or.inr ⟨_, _, rfl⟩)
        · intro id hid
          simp [addedIDs] at hid
          exact ⟨_, by simp, hid⟩
        · simp
        · simp
      · simp only [Option.some.injEq, Prod.mk.injEq] at h
        obtain ⟨rfl, rfl⟩ := h
        refine ⟨[Event.ReadString (ReadString s.reader).1,
          Event.promptListBool (.supervisorAdd (TrimSpace (ReadString s.reader).1)) yes
            (some true),
          Event.promptListBool
            (.supervisorsKeep (ids ++ [TrimSpace (ReadString s.reader).1])) yes (some true)],
          ?_, ?_, ?_, ?_, ?_⟩
        · simp [St.answered, St.read]
        · intro e he
          simp only [List.mem_cons, List.mem_singleton, List.not_mem_nil, or_false] at he
          rcases he with rfl | rfl | rfl
          · exact Or.inl ⟨_, rfl⟩
          · exact Or.inr (Or.inl ⟨_, _, rfl⟩)
          · exact Or.inr (Or.inr ⟨_, _, rfl⟩)
        · intro id hid
          simp [addedIDs] at hid
          exact ⟨_, by simp, hid⟩
        · intro l hl
          simp at hl
          simp [hl]
        · intro ids' hr
          simp only [Except.ok.injEq] at hr
          subst hr
          simp [addedIDs]
      · obtain ⟨new, h1, h2, h3, h4, h5⟩ := ih _ _ _ _ h
        refine ⟨Event.ReadString (ReadString s.reader).1 ::
          Event.promptListBool (.supervisorAdd (TrimSpace (ReadString s.reader).1)) yes
            (some true) ::
          Event.promptListBool
            (.supervisorsKeep (ids ++ [TrimSpace (ReadString s.reader).1])) yes (some false)
            :: new, ?_, ?_, ?_, ?_, ?_⟩
        · simp [h1, St.answered, St.read]
        · intro e he
          simp only [List.mem_cons] at he
          rcases he with rfl | rfl | rfl | he
          · exact Or.inl ⟨_, rfl⟩
          · exact Or.inr (Or.inl ⟨_, _, rfl⟩)
          · exact Or.inr (Or.inr ⟨_, _, rfl⟩)
          · exact h2 e he
        · intro id hid
          have hid2 : id = TrimSpace (ReadString s.reader).1 ∨ id ∈ addedIDs new := by
            simpa [addedIDs] using hid
          rcases hid2 with rfl | hid2
          · exact ⟨_, by simp, rfl⟩
          · obtain ⟨l, hl, rfl⟩ := h3 id hid2
            exact ⟨l, by simp [hl], rfl⟩
        · intro l hl
          exact h4 l (by simpa using hl)
        · intro ids' hr
          obtain ⟨a, _, c⟩ := h5 ids' hr
          exact ⟨by simpa [addedIDs] using a, by simp [addedIDs], by simp [c]⟩

theorem resolveDomain_spec (env : Env) (cmd : ManageUserCmd) (u : User) (fuel : Nat) (s s' : St)
    (r : Except GoError (Int × GoString))
    (h : resolveDomain env cmd u fuel s = some (s', r)) :
    ∃ new, s'.trace = s.trace ++ new ∧ (∀ e ∈ new, e.about .domain) ∧
      ∀ v text, r = .ok (v, text) →
        ChoiceFacts .domainUpdate .domainKeep 6 cmd.Domain u.Domain new v text := by
  unfold resolveDomain at h
  split at h
  · rename_i hflag
    split at h
    · simp only [Option.some.injEq, Prod.mk.injEq] at h
      obtain ⟨rfl, rfl⟩ := h
      exact ⟨[Event.promptListBool (.domainUpdate u.Domain) no none], by simp [St.failed],
        by simp [Event.about, Question.attr], by simp⟩
    · obtain ⟨new, h1, h2, h3⟩ := choiceLoop_spec env 6 .domainKeep
        (fun a b hab => by simpa using hab) _ _ _ _ h
      refine ⟨Event.promptListBool (.domainUpdate u.Domain) no (some true) :: new, ?_, ?_, ?_⟩
      · simp [h1, St.answered]
      · intro e he
        rcases List.mem_cons.1 he with rfl | he
        · simp [Event.about, Question.attr]
        · rcases h2 e he with ⟨l, rfl⟩ | ⟨w, ans, rfl⟩ <;> simp [Event.about, Question.attr]
      · intro v text hr
        obtain ⟨a, b, c⟩ := h3 v text hr
        refine ⟨fun hne => absurd hflag hne, ?_, ?_⟩
        · intro w hw
          have hw2 : Event.promptListBool (.domainKeep w) yes (some true) ∈ new := by
            simpa using hw
          have := c w hw2
          subst this
          exact ⟨rfl, a, b⟩
        · intro c hc
          have hc2 : Event.promptListBool (.domainUpdate c) no (some false) ∈ new := by
            simpa using hc
          rcases h2 _ hc2 with ⟨l, hl⟩ | ⟨w, ans, hl⟩ <;> simp at hl
    · simp only [Option.some.injEq, Prod.mk.injEq] at h
      obtain ⟨rfl, rfl⟩ := h
      refine ⟨[Event.promptListBool (.domainUpdate u.Domain) no (some false)],
        by simp [St.answered], by simp [Event.about, Question.attr], ?_⟩
      intro v text hr
      simp only [Except.ok.injEq, Prod.mk.injEq] at hr
      obtain ⟨rfl, rfl⟩ := hr
      exact ⟨fun hne => absurd hflag hne, by simp, by simp [hflag]⟩
  · rename_i hflag
    simp only [Option.some.injEq, Prod.mk.injEq] at h
    obtain ⟨rfl, rfl⟩ := h
    refine ⟨[], by simp, by simp, ?_⟩
    intro v text hr
    simp only [Except.ok.injEq, Prod.mk.injEq] at hr
    obtain ⟨rfl, rfl⟩ := hr
    exact ⟨fun _ => ⟨rfl, rfl⟩, by simp, by simp⟩

theorem resolveContractorType_spec (env : Env) (cmd : ManageUserCmd) (u : User) (fuel : Nat) (s s' : St)
    (r : Except GoError (Int × GoString))
    (h : resolveContractorType env cmd u fuel s = some (s', r)) :
    ∃ new, s'.trace = s.trace ++ new ∧ (∀ e ∈ new, e.about .contractorType) ∧
      ∀ v text, r = .ok (v, text) →
        ChoiceFacts .contractorTypeUpdate .contractorTypeKeep 3 cmd.ContractorType u.ContractorType new v text := by
  unfold resolveContractorType at h
  split at h
  · rename_i hflag
    split at h
    · simp only [Option.some.injEq, Prod.mk.injEq] at h
      obtain ⟨rfl, rfl⟩ := h
      exact ⟨[Event.promptListBool (.contractorTypeUpdate u.ContractorType) no none], by simp [St.failed],
        by simp [Event.about, Question.attr], by simp⟩
    · obtain ⟨new, h1, h2, h3⟩ := choiceLoop_spec env 3 .contractorTypeKeep
        (fun a b hab => by simpa using hab) _ _ _ _ h
      refine ⟨Event.promptListBool (.contractorTypeUpdate u.ContractorType) no (some true) :: new, ?_, ?_, ?_⟩
      · simp [h1, St.answered]
      · intro e he
        rcases List.mem_cons.1 he with rfl | he
        · simp [Event.about, Question.attr]
        · rcases h2 e he with ⟨l, rfl⟩ | ⟨w, ans, rfl⟩ <;> simp [Event.about, Question.attr]
      · intro v text hr
        obtain ⟨a, b, c⟩ := h3 v text hr
        refine ⟨fun hne => absurd hflag hne, ?_, ?_⟩
        · intro w hw
          have hw2 : Event.promptListBool (.contractorTypeKeep w) yes (some true) ∈ new := by
            simpa using hw
          have := c w hw2
          subst this
          exact ⟨rfl, a, b⟩
        · intro c hc
          have hc2 : Event.promptListBool (.contractorTypeUpdate c) no (some false) ∈ new := by
            simpa using hc
          rcases h2 _ hc2 with ⟨l, hl⟩ | ⟨w, ans, hl⟩ <;> simp at hl
    · simp only [Option.some.injEq, Prod.mk.injEq] at h
      obtain ⟨rfl, rfl⟩ := h
      refine ⟨[Event.promptListBool (.contractorTypeUpdate u.ContractorType) no (some false)],
        by simp [St.answered], by simp [Event.about, Question.attr], ?_⟩
      intro v text hr
      simp only [Except.ok.injEq, Prod.mk.injEq] at hr
      obtain ⟨rfl, rfl⟩ := hr
      exact ⟨fun hne => absurd hflag hne, by simp, by simp [hflag]⟩
  · rename_i hflag
    simp only [Option.some.injEq, Prod.mk.injEq] at h
    obtain ⟨rfl, rfl⟩ := h
    refine ⟨[], by simp, by simp, ?_⟩
    intro v text hr
    simp only [Except.ok.injEq, Prod.mk.injEq] at hr
    obtain ⟨rfl, rfl⟩ := hr
    exact ⟨fun _ => ⟨rfl, rfl⟩, by simp, by simp⟩

theorem resolveSupervisors_spec (env : Env) (cmd : ManageUserCmd) (u : User) (fuel : Nat)
    (s s' : St) (r : Except GoError (List GoString))
    (h : resolveSupervisors env cmd u fuel s = some (s', r)) :
    ∃ new, s'.trace = s.trace ++ new ∧ (∀ e ∈ new, e.about .supervisors) ∧
      ∀ ids, r = .ok ids → SupervisorFacts u.SupervisorUserIDs new ids := by
  unfold resolveSupervisors at h
  split at h
  · split at h
    · simp only [Option.some.injEq, Prod.mk.injEq] at h
      obtain ⟨rfl, rfl⟩ := h
      exact ⟨[Event.promptListBool (.supervisorsUpdate u.SupervisorUserIDs) no none],
        by simp [St.failed], by simp [Event.about, Question.attr], by simp⟩
    · split at h
      · simp at h
      · rename_i s2 e hloop
        simp only [Option.some.injEq, Prod.mk.injEq] at h
        obtain ⟨rfl, rfl⟩ := h
        obtain ⟨new, h1, h2, -⟩ := supervisorLoop_spec env _ _ _ _ _ hloop
        refine ⟨Event.promptListBool (.supervisorsUpdate u.SupervisorUserIDs) no (some true)
          :: new, by simp [h1, St.answered], ?_, by simp⟩
        intro e he
        rcases List.mem_cons.1 he with rfl | he
        · simp [Event.about, Question.attr]
        · rcases h2 e he with ⟨l, rfl⟩ | ⟨w, ans, rfl⟩ | ⟨w, ans, rfl⟩ <;>
            simp [Event.about, Question.attr]
      · rename_i s2 ids hloop
        simp only [Option.some.injEq, Prod.mk.injEq] at h
        obtain ⟨rfl, rfl⟩ := h
        obtain ⟨new, h1, h2, h3, h4, h5⟩ := supervisorLoop_spec env _ _ _ _ _ hloop
        have hnoUpd : ∀ c b, Event.promptListBool (.supervisorsUpdate c) no b ∉ new := by
          intro c b hc
          rcases h2 _ hc with ⟨l, hl⟩ | ⟨w, ans, hl⟩ | ⟨w, ans, hl⟩ <;> simp at hl
        refine ⟨Event.promptListBool (.supervisorsUpdate u.SupervisorUserIDs) no (some true)
          :: (new ++ [Event.ReadString (ReadString s2.reader).1]), ?_, ?_, ?_⟩
        · simp [h1, St.answered, St.read]
        · intro e he
          simp only [List.mem_cons, List.mem_append, List.mem_singleton, List.not_mem_nil,
            or_false] at he
          rcases he with rfl | he | rfl
          · simp [Event.about, Question.attr]
          · rcases h2 e he with ⟨l, rfl⟩ | ⟨w, ans, rfl⟩ | ⟨w, ans, rfl⟩ <;>
              simp [Event.about, Question.attr]
          · simp [Event.about]
        · intro ids2 hr
          simp only [Except.ok.injEq] at hr
          subst hr
          obtain ⟨hids, hne, hk⟩ := h5 ids rfl
          have hadd : addedIDs (Event.promptListBool (.supervisorsUpdate u.SupervisorUserIDs) no
              (some true) :: (new ++ [Event.ReadString (ReadString s2.reader).1]))
              = addedIDs new := by
            simp [addedIDs, List.filterMap_append]
          have hkeep : ∀ l, Event.promptListBool (.supervisorsKeep l) yes (some true) ∈
              Event.promptListBool (.supervisorsUpdate u.SupervisorUserIDs) no (some true)
                :: (new ++ [Event.ReadString (ReadString s2.reader).1]) →
              Event.promptListBool (.supervisorsKeep l) yes (some true) ∈ new := by
            intro l hl
            simpa using hl
          refine ⟨?_, ?_, ?_⟩
          · intro c hc
            have hc2 : Event.promptListBool (.supervisorsUpdate c) no (some false) ∈ new := by
              simpa using hc
            exact absurd hc2 (hnoUpd c _)
          · intro c _
            rw [hadd]
            refine ⟨hids, hne, ?_, ?_⟩
            · intro id hid
              obtain ⟨l, hl, rfl⟩ := h3 id hid
              exact ⟨l, by simp [hl], rfl⟩
            · simp [hk]
          · intro l hl
            have := h4 l (hkeep l hl)
            simpa using this.symm
    · rename_i x rd hp
      simp only [Option.some.injEq, Prod.mk.injEq] at h
      obtain ⟨rfl, rfl⟩ := h
      refine ⟨[Event.promptListBool (.supervisorsUpdate u.SupervisorUserIDs) no (some false),
        Event.ReadString (ReadString rd).1], by simp [St.answered, St.read], ?_, ?_⟩
      · intro e he
        simp only [List.mem_cons, List.mem_singleton, List.not_mem_nil, or_false] at he
        rcases he with rfl | rfl <;> simp [Event.about, Question.attr]
      · intro ids hr
        simp only [Except.ok.injEq] at hr
        subst hr
        exact ⟨by simp, by simp, by simp⟩
  · simp only [Option.some.injEq, Prod.mk.injEq] at h
    obtain ⟨rfl, rfl⟩ := h
    refine ⟨[], by simp, by simp, ?_⟩
    intro ids hr
    exact ⟨by simp, by simp, by simp⟩


theorem interactive_spec (env : Env) (cmd : ManageUserCmd) (u : User) (fuel : Nat) (s s' : St)
    (r : Except GoError Locals) (h : interactive env cmd u fuel s = some (s', r)) :
    ∃ nd nc ns, s'.trace = s.trace ++ nd ++ nc ++ ns ∧
      (∀ e ∈ nd, e.about .domain) ∧ (∀ e ∈ nc, e.about .contractorType) ∧
      (∀ e ∈ ns, e.about .supervisors) ∧
      ∀ l, r = .ok l →
        ChoiceFacts .domainUpdate .domainKeep 6 cmd.Domain u.Domain nd l.domainType l.Domain ∧
        ChoiceFacts .contractorTypeUpdate .contractorTypeKeep 3 cmd.ContractorType
          u.ContractorType nc l.contractorType l.ContractorType ∧
        SupervisorFacts u.SupervisorUserIDs ns l.SupervisorUserIDs := by
  unfold interactive at h
  split at h
  · split at h
    · simp at h
    · rename_i s1 e hd
      simp only [Option.some.injEq, Prod.mk.injEq] at h
      obtain ⟨rfl, rfl⟩ := h
      obtain ⟨nd, h1, h2, -⟩ := resolveDomain_spec _ _ _ _ _ _ _ hd
      exact ⟨nd, [], [], by simp [h1], h2, by simp, by simp, by simp⟩
    · rename_i s1 domainType domain hd
      obtain ⟨nd, hd1, hd2, hd3⟩ := resolveDomain_spec _ _ _ _ _ _ _ hd
      split at h
      · simp at h
      · rename_i s2 e hc
        simp only [Option.some.injEq, Prod.mk.injEq] at h
        obtain ⟨rfl, rfl⟩ := h
        obtain ⟨nc, h1, h2, -⟩ := resolveContractorType_spec _ _ _ _ _ _ _ hc
        exact ⟨nd, nc, [], by simp [h1, hd1], hd2, h2, by simp, by simp⟩
      · rename_i s2 contractorType contractor hc
        obtain ⟨nc, hc1, hc2, hc3⟩ := resolveContractorType_spec _ _ _ _ _ _ _ hc
        split at h
        · simp at h
        · rename_i s3 e hs
          simp only [Option.some.injEq, Prod.mk.injEq] at h
          obtain ⟨rfl, rfl⟩ := h
          obtain ⟨ns, h1, h2, -⟩ := resolveSupervisors_spec _ _ _ _ _ _ _ hs
          exact ⟨nd, nc, ns, by simp [h1, hc1, hd1], hd2, hc2, h2, by simp⟩
        · rename_i s3 ids hs
          simp only [Option.some.injEq, Prod.mk.injEq] at h
          obtain ⟨rfl, rfl⟩ := h
          obtain ⟨ns, h1, h2, h3⟩ := resolveSupervisors_spec _ _ _ _ _ _ _ hs
          refine ⟨nd, nc, ns, by simp [h1, hc1, hd1], hd2, hc2, h2, ?_⟩
          intro l hl
          simp only [Except.ok.injEq] at hl
          subst hl
          exact ⟨hd3 _ _ rfl, hc3 _ _ rfl, h3 _ rfl⟩
  · rename_i hcond
    simp only [Option.some.injEq, Prod.mk.injEq] at h
    obtain ⟨rfl, rfl⟩ := h
    refine ⟨[], [], [], by simp, by simp, by simp, by simp, ?_⟩
    intro l hl
    simp only [Except.ok.injEq] at hl
    subst hl
    exact ⟨⟨fun _ => ⟨rfl, rfl⟩, by simp, by simp⟩, ⟨fun _ => ⟨rfl, rfl⟩, by simp, by simp⟩,
      by simp [SupervisorFacts]⟩

theorem assemble_spec (cmd : ManageUserCmd) (l : Locals) (mu : ManageUser)
    (h : assemble cmd l = .ok mu) :
    mu.UserID = cmd.UserID ∧
    (l.domainType ≠ 0 → mu.Domain = l.domainType) ∧
    (l.domainType = 0 → Atoi (TrimSpace l.Domain) = some mu.Domain) ∧
    (l.contractorType ≠ 0 → mu.ContractorType = l.contractorType) ∧
    (l.contractorType = 0 → Atoi (TrimSpace l.ContractorType) = some mu.ContractorType) ∧
    (cmd.SupervisorUserIDs ≠ [] → mu.SupervisorUserIDs = Split cmd.SupervisorUserIDs ',') ∧
    (cmd.SupervisorUserIDs = [] → mu.SupervisorUserIDs = l.SupervisorUserIDs) := by
  unfold assemble at h
  split at h
  · simp at h
  · rename_i domainType hd
    split at h
    · simp at h
    · rename_i contractorType hc
      have hmu : mu.Domain = domainType ∧ mu.ContractorType = contractorType ∧
          mu.UserID = cmd.UserID ∧
          (cmd.SupervisorUserIDs ≠ [] → mu.SupervisorUserIDs = Split cmd.SupervisorUserIDs ',') ∧
          (cmd.SupervisorUserIDs = [] → mu.SupervisorUserIDs = l.SupervisorUserIDs) := by
        split at h
        · rename_i hne
          split at h
          · simp at h
          · simp only [Except.ok.injEq] at h
            subst h
            exact ⟨rfl, rfl, rfl, fun _ => rfl, fun he => absurd he hne⟩
        · rename_i he
          simp only [Except.ok.injEq] at h
          subst h
          exact ⟨rfl, rfl, rfl, fun hne => absurd (by simpa using he) hne, fun _ => rfl⟩
      obtain ⟨h1, h2, h3, h4, h5⟩ := hmu
      refine ⟨h3, ?_, ?_, ?_, ?_, h4, h5⟩
      · intro hne; simp [hne] at hd; rw [h1, hd]
      · intro he; simp [he] at hd; rw [h1, hd]
      · intro hne; simp [hne] at hc; rw [h2, hc]
      · intro he; simp [he] at hc; rw [h2, hc]

theorem submitted_append (a b : List Event) : submitted (a ++ b) = submitted a ++ submitted b := by
  simp [submitted, List.filterMap_append]

theorem submitted_about (a : Attr) (new : List Event) (h : ∀ e ∈ new, e.about a) :
    submitted new = [] := by
  simp only [submitted, List.filterMap_eq_nil_iff]
  intro e he
  have := h e he
  cases e <;> simp [Event.about] at this ⊢

/-- Every run that submits a request went through the checks and the lookup,
resolved the three attributes and assembled the request from them. -/
theorem Execute_spec (env : Env) (cmd : ManageUserCmd) (fuel : Nat) (res : Result)
    (mu : ManageUser) (h : ManageUserCmd.Execute env cmd fuel = some res)
    (hmu : mu ∈ submitted res.trace) :
    ∃ uir nd nc ns l tail,
      env.CMSUserDetails (TrimSpace cmd.UserID) = .ok uir ∧
      res.trace = [Event.Me, Event.CMSUserDetails (TrimSpace cmd.UserID)] ++ nd ++ nc ++ ns ++
        Event.CMSManageUser mu :: tail ∧
      (∀ e ∈ tail, ∃ rep, e = Event.PrintJSON rep) ∧
      (∀ e ∈ nd, e.about .domain) ∧ (∀ e ∈ nc, e.about .contractorType) ∧
      (∀ e ∈ ns, e.about .supervisors) ∧
      ChoiceFacts .domainUpdate .domainKeep 6 cmd.Domain (userInfoOf uir).Domain nd
        l.domainType l.Domain ∧
      ChoiceFacts .contractorTypeUpdate .contractorTypeKeep 3 cmd.ContractorType
        (userInfoOf uir).ContractorType nc l.contractorType l.ContractorType ∧
      SupervisorFacts (userInfoOf uir).SupervisorUserIDs ns l.SupervisorUserIDs ∧
      assemble cmd l = .ok mu := by
  unfold ManageUserCmd.Execute at h
  split at h
  · simp at h; subst h; simp [submitted] at hmu
  · split at h
    · simp at h; subst h; simp [submitted] at hmu
    · split at h
      · simp at h; subst h; simp [submitted] at hmu
      · split at h
        · simp at h; subst h; simp [submitted] at hmu
        · rename_i uir hlook
          split at h
          · simp at h
          · rename_i s e hi
            obtain ⟨nd, nc, ns, h1, h2, h3, h4, -⟩ := interactive_spec _ _ _ _ _ _ _ hi
            simp only [Option.some.injEq] at h
            subst h
            simp only [h1, submitted_append, submitted_about _ _ h2, submitted_about _ _ h3,
              submitted_about _ _ h4] at hmu
            simp [submitted] at hmu
          · rename_i s l hi
            obtain ⟨nd, nc, ns, h1, h2, h3, h4, h5⟩ := interactive_spec _ _ _ _ _ _ _ hi
            obtain ⟨f1, f2, f3⟩ := h5 l rfl
            have hnone : submitted s.trace = [] := by
              simp only [h1, submitted_append, submitted_about _ _ h2, submitted_about _ _ h3,
                submitted_about _ _ h4]
              simp [submitted]
            split at h
            · simp only [Option.some.injEq] at h
              subst h
              simp [hnone] at hmu
            · rename_i mu2 hasm
              simp only [Option.some.injEq] at h
              subst h
              unfold submit at hmu ⊢
              split at hmu
              · rename_i e hsub
                simp only [submitted_append, hnone, List.nil_append] at hmu
                simp [submitted] at hmu
                subst hmu
                refine ⟨uir, nd, nc, ns, l, [], hlook, ?_, by simp, h2, h3, h4, f1, f2, f3, hasm⟩
                simp [hsub, h1]
              · rename_i ecur hsub
                simp only [submitted_append, hnone, List.nil_append] at hmu
                simp [submitted] at hmu
                subst hmu
                refine ⟨uir, nd, nc, ns, l, [Event.PrintJSON ecur], hlook, ?_,
                  fun e he => ⟨ecur, List.mem_singleton.1 he⟩, h2, h3, h4, f1, f2, f3, hasm⟩
                simp [hsub, h1]


theorem supervisorLoop_repeats (env : Env) (a b : List GoString × St)
    (h : SupervisorRepeats env a b) (fuel : Nat) :
    supervisorLoop env (fuel + 1) a.1 a.2 = supervisorLoop env fuel b.1 b.2 := by
  cases h with
  | addDeclined ids s r hp => simp only [supervisorLoop, hp]
  | keepDeclined ids s r r3 hp hk => simp only [supervisorLoop, hp, St.answered, hk]

theorem supervisorLoop_progress (env : Env) (ids ids1 : List GoString) (s s1 : St)
    (r r3 : Reader)
    (hrep : Relation.ReflTransGen (SupervisorRepeats env) (ids, s) (ids1, s1))
    (hadd : env.promptListBool s1.read.reader
      (.supervisorAdd (TrimSpace (ReadString s1.reader).1)) yes = .ok (true, r))
    (hkeep : env.promptListBool r
      (.supervisorsKeep (ids1 ++ [TrimSpace (ReadString s1.reader).1])) yes = .ok (true, r3)) :
    ∃ n0, ∀ fuel, n0 ≤ fuel → supervisorLoop env fuel ids s =
      some ((s1.read.answered (.supervisorAdd (TrimSpace (ReadString s1.reader).1)) yes true
          r).answered (.supervisorsKeep (ids1 ++ [TrimSpace (ReadString s1.reader).1])) yes true r3,
        .ok (ids1 ++ [TrimSpace (ReadString s1.reader).1])) := by
  generalize hx : (ids, s) = x at hrep
  induction hrep using Relation.ReflTransGen.head_induction_on generalizing ids s with
  | refl =>
    simp only [Prod.mk.injEq] at hx
    obtain ⟨rfl, rfl⟩ := hx
    refine ⟨1, fun fuel hf => ?_⟩
    obtain ⟨k, rfl⟩ : ∃ k, fuel = k + 1 := ⟨fuel - 1, by omega⟩
    simp only [supervisorLoop, hadd, St.answered, hkeep]
  | head hstep _ ih =>
    subst hx
    rename_i c _
    obtain ⟨n0, hn0⟩ := ih c.1 c.2 rfl
    refine ⟨n0 + 1, fun fuel hf => ?_⟩
    obtain ⟨k, rfl⟩ : ∃ k, fuel = k + 1 := ⟨fuel - 1, by omega⟩
    have := supervisorLoop_repeats env _ _ hstep k
    simp only at this
    rw [this]
    exact hn0 k (by omega)


theorem prompt_mem_run (id : GoString) (nd nc ns tail : List Event) (mu : ManageUser)
    (hnd : ∀ e ∈ nd, e.about .domain) (hnc : ∀ e ∈ nc, e.about .contractorType)
    (hns : ∀ e ∈ ns, e.about .supervisors) (htail : ∀ e ∈ tail, ∃ rep, e = Event.PrintJSON rep)
    (q : Question) (d : GoString) (a : Option Bool)
    (h : Event.promptListBool q d a ∈
      [Event.Me, Event.CMSUserDetails id] ++ nd ++ nc ++ ns ++ Event.CMSManageUser mu :: tail) :
    (q.attr = .domain → Event.promptListBool q d a ∈ nd) ∧
    (q.attr = .contractorType → Event.promptListBool q d a ∈ nc) ∧
    (q.attr = .supervisors → Event.promptListBool q d a ∈ ns) := by
  simp only [List.mem_append, List.mem_cons, List.not_mem_nil, or_false] at h
  rcases h with (((h | h) | h) | h) | h
  · rcases h with h | h <;> cases h
  · have := hnd _ h
    simp only [Event.about] at this
    refine ⟨fun _ => h, ?_, ?_⟩ <;> intro hq <;> rw [hq] at this <;> cases this
  · have := hnc _ h
    simp only [Event.about] at this
    refine ⟨?_, fun _ => h, ?_⟩ <;> intro hq <;> rw [hq] at this <;> cases this
  · have := hns _ h
    simp only [Event.about] at this
    refine ⟨?_, ?_, fun _ => h⟩ <;> intro hq <;> rw [hq] at this <;> cases this
  · rcases h with h | h
    · cases h
    · obtain ⟨rep, hrep⟩ := htail _ h
      cases hrep

theorem addedIDs_about (a : Attr) (ha : a ≠ .supervisors) (new : List Event)
    (h : ∀ e ∈ new, e.about a) : addedIDs new = [] := by
  simp only [addedIDs, List.filterMap_eq_nil_iff]
  intro e he
  have := h e he
  cases e with
  | promptListBool q d ans =>
    cases q <;> simp only [Event.about, Question.attr] at this <;> first
      | rfl
      | exact absurd this.symm ha
  | _ => rfl

theorem addedIDs_run (id : GoString) (nd nc ns tail : List Event) (mu : ManageUser)
    (hnd : ∀ e ∈ nd, e.about .domain) (hnc : ∀ e ∈ nc, e.about .contractorType)
    (htail : ∀ e ∈ tail, ∃ rep, e = Event.PrintJSON rep) :
    addedIDs ([Event.Me, Event.CMSUserDetails id] ++ nd ++ nc ++ ns ++
      Event.CMSManageUser mu :: tail) = addedIDs ns := by
  have ht : addedIDs tail = [] := by
    simp only [addedIDs, List.filterMap_eq_nil_iff]
    intro e he
    obtain ⟨rep, rfl⟩ := htail e he
    rfl
  rw [addedIDs_append, addedIDs_append, addedIDs_append, addedIDs_append,
    addedIDs_about _ (by decide) nd hnd, addedIDs_about _ (by decide) nc hnc]
  have : addedIDs (Event.CMSManageUser mu :: tail) = addedIDs tail := by simp [addedIDs]
  rw [this, ht]
  simp [addedIDs]


/-! ### manageuser: the checks before the lookup -/

/-- Claim C4: without a configured identity `manageuser` returns the
identity-not-found error and calls no collaborator; for a caller who is not an
administrator it returns the must-be-an-administrator error after the call of
`Me` alone; and a run that does anything beyond calling `Me` (a lookup, a
prompt, a read, an update) had an identity and an administrator's profile. -/
theorem manageuser_checks_identity_and_admin_first (env : Env) (cmd : ManageUserCmd) :
    (env.Identity = false →
      ∀ fuel, ManageUserCmd.Execute env cmd fuel = some ⟨[], some env.ErrUserIdentityNotFound⟩) ∧
    (env.Identity = true → ∀ lr, env.Me = .ok lr → lr.IsAdmin = false →
      ∀ fuel, ManageUserCmd.Execute env cmd fuel = some ⟨[.Me], some (Errorf mustBeAdmin)⟩) ∧
    (∀ fuel res, ManageUserCmd.Execute env cmd fuel = some res →
      (∃ e ∈ res.trace, e ≠ Event.Me) →
      env.Identity = true ∧ ∃ lr, env.Me = .ok lr ∧ lr.IsAdmin = true) := by
  refine ⟨?_, ?_, ?_⟩
  · intro h fuel
    simp [ManageUserCmd.Execute, h]
  · intro h lr hme hadm fuel
    simp [ManageUserCmd.Execute, h, hme, hadm]
  · intro fuel res hres hev
    unfold ManageUserCmd.Execute at hres
    split at hres
    · simp at hres; subst hres; simp at hev
    · rename_i hid
      split at hres
      · simp at hres; subst hres; simp at hev
      · rename_i lr hme
        split at hres
        · simp at hres; subst hres; simp at hev
        · rename_i hadm
          exact ⟨by simpa using hid, lr, hme, by simpa using hadm⟩

/-- Witness of claim C4: a caller who is no administrator, with all three flags
given, gets the must-be-an-administrator error after `Me` alone. -/
theorem manageuser_checks_identity_and_admin_first_witness :
    (plainSession [] scenarioUser).Identity = true ∧
    ManageUserCmd.Execute (plainSession [] scenarioUser)
      ⟨"u1".toList, "5".toList, "1".toList, "a".toList⟩ 0 =
      some ⟨[.Me], some (Errorf mustBeAdmin)⟩ :=
  ⟨rfl, (manageuser_checks_identity_and_admin_first (plainSession [] scenarioUser)
    ⟨"u1".toList, "5".toList, "1".toList, "a".toList⟩).2.1 rfl ⟨false⟩ rfl rfl 0⟩

/-- Claim C9: with a supervisor flag and neither a domain nor a contractor-type
flag, once identity, administrator and lookup have succeeded, the command asks
nothing, submits nothing and returns the error "invalid domain attempted",
whatever record the lookup returned. -/
theorem manageuser_supervisor_flag_alone_fails (env : Env) (cmd : ManageUserCmd)
    (lr : LoginReply) (uir : Option UserDetailsReply)
    (hid : env.Identity = true) (hme : env.Me = .ok lr) (hadm : lr.IsAdmin = true)
    (hlook : env.CMSUserDetails (TrimSpace cmd.UserID) = .ok uir)
    (hd : cmd.Domain = []) (hc : cmd.ContractorType = []) (hs : cmd.SupervisorUserIDs ≠ []) :
    ∀ fuel, ManageUserCmd.Execute env cmd fuel =
      some ⟨[.Me, .CMSUserDetails (TrimSpace cmd.UserID)], some (Errorf invalidDomain)⟩ := by
  intro fuel
  simp [ManageUserCmd.Execute, hid, hme, hadm, hlook, interactive, hd, hc, hs, assemble,
    atoi_trim_nil]

/-- Witness of claim C9: the flag `--supervisoruserids=a` alone, on the record
of the scenario. -/
theorem manageuser_supervisor_flag_alone_fails_witness :
    ManageUserCmd.Execute (adminSession [] scenarioUser) ⟨"u1".toList, [], [], "a".toList⟩ 5 =
      some ⟨[.Me, .CMSUserDetails "u1".toList], some (Errorf invalidDomain)⟩ :=
  manageuser_supervisor_flag_alone_fails (adminSession [] scenarioUser)
    ⟨"u1".toList, [], [], "a".toList⟩ ⟨true⟩ (some ⟨scenarioUser⟩) rfl rfl rfl rfl rfl rfl
    (by decide) 5

/-! ### manageuser: what the code does against the claims -/

/-- Claim C1, the code at the failing input: with the flags `--domain=7
--contractortype=0 --supervisoruserids=a` the request passed to `CMSManageUser`
has domain 7 and contractor type 0. -/
theorem manageuser_submits_out_of_range_flags :
    ∀ fuel, ManageUserCmd.Execute (adminSession [] scenarioUser)
      ⟨"u1".toList, "7".toList, "0".toList, "a".toList⟩ fuel =
      some ⟨[.Me, .CMSUserDetails "u1".toList,
        .CMSManageUser ⟨"u1".toList, 7, 0, ["a".toList]⟩, .PrintJSON ⟨⟩], none⟩ := by
  intro fuel
  rfl

/-- Claim C2, the code at the failing input: with the flag
`--supervisoruserids=,` the request passed to `CMSManageUser` lists two empty
supervisor IDs. -/
theorem manageuser_submits_empty_supervisor_ids :
    ∀ fuel, ManageUserCmd.Execute (adminSession [] scenarioUser)
      ⟨"u1".toList, "1".toList, "1".toList, ",".toList⟩ fuel =
      some ⟨[.Me, .CMSUserDetails "u1".toList,
        .CMSManageUser ⟨"u1".toList, 1, 1, [[], []]⟩, .PrintJSON ⟨⟩], none⟩ := by
  intro fuel
  rfl

/-- Claim C10, the code at the failing input: for the argument " u1 " the
lookup is made for "u1" and the request names " u1 ". -/
theorem manageuser_request_keeps_untrimmed_userid :
    ∀ fuel, ManageUserCmd.Execute (adminSession [] scenarioUser)
      ⟨" u1 ".toList, "1".toList, "1".toList, "a".toList⟩ fuel =
      some ⟨[.Me, .CMSUserDetails "u1".toList,
        .CMSManageUser ⟨" u1 ".toList, 1, 1, ["a".toList]⟩, .PrintJSON ⟨⟩], none⟩ := by
  intro fuel
  rfl

/-- In every run the request names the argument as given, and a supervisor
flag, when not empty, is the list of the request split on commas. -/
theorem manageuser_request_userid_and_flag_list (env : Env) (cmd : ManageUserCmd) (fuel : Nat)
    (res : Result) (mu : ManageUser) (h : ManageUserCmd.Execute env cmd fuel = some res)
    (hmu : mu ∈ submitted res.trace) :
    mu.UserID = cmd.UserID ∧
    (cmd.SupervisorUserIDs ≠ [] → mu.SupervisorUserIDs = Split cmd.SupervisorUserIDs ',') := by
  obtain ⟨uir, nd, nc, ns, l, tail, -, -, -, -, -, -, -, -, -, hasm⟩ :=
    Execute_spec env cmd fuel res mu h hmu
  obtain ⟨h1, -, -, -, -, h6, -⟩ := assemble_spec cmd l mu hasm
  exact ⟨h1, h6⟩


/-- Claim C8: in every run without a supervisor flag in which "Update?" was
accepted for the supervisor list, the list of the submitted request is the list
of the record followed by the IDs whose "Add this?" was accepted, in the order
of entry; at least one was added, each is a line read with the white space
trimmed, the record's list is a prefix and the result is not empty, and the
only list whose "Keep This?" was accepted is the one submitted. In the loop,
after any number of rounds in which "Add this?" or "Keep This?" was declined,
an ID that is added and kept ends the loop with the list so far and that ID,
given enough iterations. -/
theorem manageuser_supervisor_list_built (env : Env) (cmd : ManageUserCmd) :
    (∀ fuel res mu uir, ManageUserCmd.Execute env cmd fuel = some res →
      mu ∈ submitted res.trace → env.CMSUserDetails (TrimSpace cmd.UserID) = .ok uir →
      cmd.SupervisorUserIDs = [] →
      Event.promptListBool (.supervisorsUpdate (userInfoOf uir).SupervisorUserIDs) no
        (some true) ∈ res.trace →
      mu.SupervisorUserIDs = (userInfoOf uir).SupervisorUserIDs ++ addedIDs res.trace ∧
      addedIDs res.trace ≠ [] ∧ mu.SupervisorUserIDs ≠ [] ∧
      (userInfoOf uir).SupervisorUserIDs <+: mu.SupervisorUserIDs ∧
      (∀ id ∈ addedIDs res.trace, ∃ l, Event.ReadString l ∈ res.trace ∧ id = TrimSpace l) ∧
      Event.promptListBool (.supervisorsKeep mu.SupervisorUserIDs) yes (some true) ∈ res.trace ∧
      ∀ l, Event.promptListBool (.supervisorsKeep l) yes (some true) ∈ res.trace →
        l = mu.SupervisorUserIDs) ∧
    (∀ ids ids1 s s1 r r3,
      Relation.ReflTransGen (SupervisorRepeats env) (ids, s) (ids1, s1) →
      env.promptListBool s1.read.reader
        (.supervisorAdd (TrimSpace (ReadString s1.reader).1)) yes = .ok (true, r) →
      env.promptListBool r
        (.supervisorsKeep (ids1 ++ [TrimSpace (ReadString s1.reader).1])) yes = .ok (true, r3) →
      ∃ n0, ∀ fuel, n0 ≤ fuel → supervisorLoop env fuel ids s =
        some ((s1.read.answered (.supervisorAdd (TrimSpace (ReadString s1.reader).1)) yes true
            r).answered (.supervisorsKeep (ids1 ++ [TrimSpace (ReadString s1.reader).1])) yes
            true r3,
          .ok (ids1 ++ [TrimSpace (ReadString s1.reader).1]))) := by
  constructor
  · intro fuel res mu uir h hmu hlook hflag hupd
    obtain ⟨uir2, nd, nc, ns, l, tail, hlook2, htr, htail, hnd, hnc, hns, -, -, fs, hasm⟩ :=
      Execute_spec env cmd fuel res mu h hmu
    rw [hlook] at hlook2
    obtain rfl : uir = uir2 := by simpa using hlook2
    obtain ⟨-, -, -, -, -, -, a6⟩ := assemble_spec cmd l mu hasm
    have hmem : Event.promptListBool (.supervisorsUpdate (userInfoOf uir).SupervisorUserIDs) no
        (some true) ∈ ns := by
      rw [htr] at hupd
      exact (prompt_mem_run _ nd nc ns tail mu hnd hnc hns htail _ _ _ hupd).2.2 rfl
    obtain ⟨hids, hne, hlines, hkeep⟩ := fs.2.1 _ hmem
    have hadd : addedIDs res.trace = addedIDs ns := by
      rw [htr]; exact addedIDs_run _ nd nc ns tail mu hnd hnc htail
    have hns_sub : ∀ e ∈ ns, e ∈ res.trace := by
      intro e he; rw [htr]; simp [he]
    rw [hadd, a6 hflag]
    refine ⟨hids, hne, ?_, ?_, ?_, hns_sub _ hkeep, ?_⟩
    · rw [hids]
      intro hnil
      exact hne (List.append_eq_nil.1 hnil).2
    · exact ⟨addedIDs ns, hids.symm⟩
    · intro id hid
      obtain ⟨ln, hln, rfl⟩ := hlines id hid
      exact ⟨ln, hns_sub _ hln, rfl⟩
    · intro ln hln
      rw [htr] at hln
      exact fs.2.2 ln ((prompt_mem_run _ nd nc ns tail mu hnd hnc hns htail _ _ _ hln).2.2 rfl)
  · intro ids ids1 s s1 r r3 hrep hadd hkeep
    exact supervisorLoop_progress env ids ids1 s s1 r r3 hrep hadd hkeep

/-- Witness of claim C8: on the record with supervisor "a", " abc " is read and
declined, "de" is added and the list not kept, "f" is added and the list kept;
the request lists "a", "de", "f". The loop alone: after the declined "x" the
added and kept "f" ends it with "a", "f". -/
theorem manageuser_supervisor_list_built_witness :
    (ManageUserCmd.Execute supervisorSession supervisorCmd 3 = some supervisorResult ∧
      supervisorRequest ∈ submitted supervisorResult.trace ∧
      supervisorRequest.SupervisorUserIDs =
        scenarioUser.SupervisorUserIDs ++ addedIDs supervisorResult.trace ∧
      addedIDs supervisorResult.trace = ["de".toList, "f".toList]) ∧
    (∃ n0, ∀ fuel, n0 ≤ fuel →
      supervisorLoop supervisorSession fuel ["a".toList] ⟨"x\nn\nf\n\n\n".toList, []⟩ =
        some (⟨[], [.ReadString "x\n".toList,
          .promptListBool (.supervisorAdd "x".toList) yes (some false),
          .ReadString "f\n".toList, .promptListBool (.supervisorAdd "f".toList) yes (some true),
          .promptListBool (.supervisorsKeep ["a".toList, "f".toList]) yes (some true)]⟩,
          .ok ["a".toList, "f".toList])) := by
  have h := manageuser_supervisor_list_built supervisorSession supervisorCmd
  have hrun : ManageUserCmd.Execute supervisorSession supervisorCmd 3 = some supervisorResult := by
    decide
  have hmem : supervisorRequest ∈ submitted supervisorResult.trace := by decide
  have hreq := h.1 3 supervisorResult supervisorRequest (some ⟨scenarioUser⟩) hrun hmem rfl rfl
    (by decide)
  refine ⟨⟨hrun, hmem, hreq.1, by decide⟩, ?_⟩
  exact h.2 ["a".toList] ["a".toList] ⟨"x\nn\nf\n\n\n".toList, []⟩
    ⟨"f\n\n\n".toList, [.ReadString "x\n".toList,
      .promptListBool (.supervisorAdd "x".toList) yes (some false)]⟩ "\n".toList []
    (Relation.ReflTransGen.single
      (SupervisorRepeats.addDeclined ["a".toList] ⟨"x\nn\nf\n\n\n".toList, []⟩ "f\n\n\n".toList
        rfl))
    rfl rfl

/-! ### newuser -/

end Politeia
